import Mathlib

/-!
Shallow embedding of the accrual & payment-allocation ledger engine of the
abonos-LS repository (three front-end variants: `app.py`, `appv2.py`, and the
text-menu program).  Monetary values are modelled as rationals (the reference
uses decimal-like arithmetic with a `0.01` epsilon for "effectively zero"
comparisons); dates are `(year, month, day)` triples compared
lexicographically, matching Python's `datetime.date` ordering on valid dates.

Connection model: `get_conn()` opens a *fresh* SQLite connection on every
call, so `devengamiento_saldo` (which opens its own connection) only sees
committed rows.  During an allocation run the run's own inserts are
uncommitted, hence every balance read inside a run is taken against the store
as it was when the run started; each accrual is read at most once per
automatic run, and a manual directive that names the same accrual twice sees
the stale (start-of-run) balance both times.  The embedding passes the
start-of-run store to every balance read accordingly.
-/

namespace Abonos

/-- A calendar date as stored in the TEXT columns `fecha_inicio`, `fecha_fin`,
`fecha`, `fecha_devengada`, compared like Python `datetime.date`. -/
structure Fecha where
  anyo : Int
  mes : Int
  dia : Int
deriving DecidableEq

/-- Python `date` comparison `a < b` (lexicographic on year, month, day). -/
def Fecha.blt (a b : Fecha) : Bool :=
  a.anyo < b.anyo || (a.anyo == b.anyo &&
    (a.mes < b.mes || (a.mes == b.mes && a.dia < b.dia)))

/-- Propositional form of the date order, for stating boundary properties. -/
def Fecha.lt (a b : Fecha) : Prop :=
  a.anyo < b.anyo ∨ (a.anyo = b.anyo ∧
    (a.mes < b.mes ∨ (a.mes = b.mes ∧ a.dia < b.dia)))

instance : DecidableRel Fecha.lt := fun a b => by unfold Fecha.lt; infer_instance

/-- Gregorian leap-year rule, as used by Python's `datetime`. -/
def esBisiesto (y : Int) : Bool :=
  (y % 4 == 0 && y % 100 != 0) || (y % 400 == 0)

/-- Number of days of month `m` of year `y` (Python calendar). -/
def diasEnMes (y m : Int) : Int :=
  if m = 2 then (if esBisiesto y then 29 else 28)
  else if m = 4 ∨ m = 6 ∨ m = 9 ∨ m = 11 then 30
  else 31

/-- `ultimo_dia_mes` (`app.py` 139-144, `appv2.py` 194-199): last day of the
month.  For `mes ≠ 12` the source computes `date(anyo, mes+1, 1) -
timedelta(days=1)`, whose value is day `diasEnMes anyo mes` of month `mes`. -/
def ultimo_dia_mes (anyo mes : Int) : Fecha :=
  if mes = 12 then ⟨anyo, 12, 31⟩ else ⟨anyo, mes, diasEnMes anyo mes⟩

/-- Row of `clientes` (columns the engine reads). -/
structure Cliente where
  id : Int
  activo : Bool
deriving DecidableEq

/-- Row of `planes` (columns the engine reads). -/
structure PlanRow where
  id : Int
  cliente_id : Int
  importe : ℚ
  fecha_inicio : Fecha
  fecha_fin : Option Fecha
  activo : Bool
deriving DecidableEq

/-- Row of `devengamientos` (accruals; columns the engine reads). -/
structure Devengamiento where
  id : Int
  cliente_id : Int
  plan_id : Option Int
  periodo_anyo : Int
  periodo_mes : Int
  importe : ℚ
  fecha_devengada : Fecha
deriving DecidableEq

/-- Row of `cobros` (payments; columns the engine reads). -/
structure Cobro where
  id : Int
  cliente_id : Int
  fecha : Fecha
  importe : ℚ
deriving DecidableEq

/-- Row of `devengamientos_cobros` (payment allocations). -/
structure DevengamientoCobro where
  devengamiento_id : Int
  cobro_id : Int
  monto : ℚ
deriving DecidableEq

/-- Row of `ajustes` (adjustments). -/
structure Ajuste where
  cliente_id : Int
  fecha : Fecha
  descripcion : String
  monto : ℚ
  tipo : String
  referencia_devengamiento_id : Option Int
deriving DecidableEq

/-- The relational store.  `seq_devengamientos` models the AUTOINCREMENT
sequence of the `devengamientos` table (ids of created accruals). -/
structure Store where
  clientes : List Cliente
  planes : List PlanRow
  devengamientos : List Devengamiento
  cobros : List Cobro
  devengamientos_cobros : List DevengamientoCobro
  ajustes : List Ajuste
  seq_devengamientos : Int
deriving DecidableEq

/-- The `0.01` "effectively zero" epsilon used throughout the sources. -/
def eps : ℚ := 1 / 100

/-- `SELECT COUNT(1) FROM devengamientos WHERE id=?` > 0
(`devengamiento_exists`). -/
def devengamiento_exists (s : Store) (i : Int) : Bool :=
  s.devengamientos.any (fun d => d.id == i)

/-- `SELECT COALESCE(SUM(monto),0) FROM devengamientos_cobros WHERE
devengamiento_id=?` — total allocated against an accrual. -/
def apSum (s : Store) (i : Int) : ℚ :=
  ((s.devengamientos_cobros.filter (fun x => x.devengamiento_id == i)).map
    (fun x => x.monto)).sum

/-- `SELECT COALESCE(SUM(monto),0) FROM ajustes WHERE
referencia_devengamiento_id=?` — net adjustments referencing an accrual
(SQL `= ?` never matches NULL, hence the `some` match). -/
def ajSum (s : Store) (i : Int) : ℚ :=
  ((s.ajustes.filter (fun a => a.referencia_devengamiento_id == some i)).map
    (fun a => a.monto)).sum

/-- `devengamiento_saldo` (`app.py` 171-187, text-menu 660-693, `appv2.py`
230-254): outstanding balance of an accrual; `0` for a missing id; negative
raw results are clamped to zero. -/
def devengamiento_saldo (s : Store) (deveng_id : Int) : ℚ :=
  match s.devengamientos.find? (fun d => d.id == deveng_id) with
  | none => 0
  | some r => max 0 (r.importe + ajSum s deveng_id - apSum s deveng_id)

/-- The `ORDER BY d.periodo_anyo, d.periodo_mes, d.id` ascending key used by
automatic allocation. -/
def devOrden (a b : Devengamiento) : Prop :=
  a.periodo_anyo < b.periodo_anyo ∨ (a.periodo_anyo = b.periodo_anyo ∧
    (a.periodo_mes < b.periodo_mes ∨ (a.periodo_mes = b.periodo_mes ∧ a.id ≤ b.id)))

instance : DecidableRel devOrden := fun a b => by unfold devOrden; infer_instance

instance : IsTotal Devengamiento devOrden := ⟨by intro a b; unfold devOrden; omega⟩

instance : IsTrans Devengamiento devOrden := ⟨by intro a b c; unfold devOrden; omega⟩

/-- `SELECT d.* FROM devengamientos d WHERE d.cliente_id=? ORDER BY
d.periodo_anyo, d.periodo_mes, d.id` — the client's accruals, oldest period
first, ties broken by id. -/
def devsCliente (s : Store) (cliente_id : Int) : List Devengamiento :=
  (s.devengamientos.filter (fun d => d.cliente_id == cliente_id)).insertionSort devOrden

/-- Sum of the amounts of a list of allocation rows. -/
def allocTotal (l : List DevengamientoCobro) : ℚ := (l.map (fun a => a.monto)).sum

/-- Append freshly inserted allocation rows to the store (commit). -/
def appendAllocs (s : Store) (l : List DevengamientoCobro) : Store :=
  { s with devengamientos_cobros := s.devengamientos_cobros ++ l }

/-- Walk of `imputar_automatico` / `imputar_automatico_db` (`app.py` 189-205,
text-menu 931-973, `appv2.py` 256-289) over the ordered accrual list: break
once the remaining amount is ≤ 0.01, skip accruals whose balance is ≤ 0.01,
otherwise insert `min(remaining, balance)` and decrement.  Balances are read
through a fresh connection, i.e. against the start-of-run store `s`. -/
def imputarAutoLoop (s : Store) (cobro_id : Int) :
    List Devengamiento → ℚ → List DevengamientoCobro × ℚ
  | [], restante => ([], restante)
  | d :: devs, restante =>
    if restante ≤ eps then ([], restante)
    else
      let saldo := devengamiento_saldo s d.id
      if saldo ≤ eps then imputarAutoLoop s cobro_id devs restante
      else
        let monto := min restante saldo
        let r := imputarAutoLoop s cobro_id devs (restante - monto)
        (⟨d.id, cobro_id, monto⟩ :: r.1, r.2)

/-- `imputar_automatico_db` / `imputar_automatico`: run the walk over the
client's ordered accruals, commit the inserted allocation rows, and return
the unallocated remainder. -/
def imputar_automatico_db (s : Store) (cobro_id cliente_id : Int) (importe : ℚ) :
    Store × ℚ :=
  let r := imputarAutoLoop s cobro_id (devsCliente s cliente_id) importe
  (appendAllocs s r.1, r.2)

/-- Pair loop of `imputar_manual` (text-menu 975-1059): for each directive
`(accrual id, requested amount)` in caller order, skip non-positive amounts
and missing accruals, clamp to the accrual balance when the request exceeds
it by more than 0.01, then clamp to the remaining amount when it exceeds that
by more than 0.01, skip non-positive results, insert and decrement, and stop
once the remainder is ≤ 0.01.  Balance reads go through a fresh connection,
i.e. against the start-of-run store `s`. -/
def imputarManualLoop (s : Store) (cobro_id : Int) :
    List (Int × ℚ) → ℚ → List DevengamientoCobro × ℚ
  | [], restante => ([], restante)
  | (did, monto) :: ps, restante =>
    if monto ≤ 0 then imputarManualLoop s cobro_id ps restante
    else if !devengamiento_exists s did then imputarManualLoop s cobro_id ps restante
    else
      let saldo := devengamiento_saldo s did
      let monto1 := if monto > saldo + eps then saldo else monto
      let monto2 := if monto1 > restante + eps then restante else monto1
      if monto2 ≤ 0 then imputarManualLoop s cobro_id ps restante
      else
        let restante' := restante - monto2
        if restante' ≤ eps then ([⟨did, cobro_id, monto2⟩], restante')
        else
          let r := imputarManualLoop s cobro_id ps restante'
          (⟨did, cobro_id, monto2⟩ :: r.1, r.2)

/-- `imputar_manual`: run the directive loop starting from the payment's
amount, commit the inserted allocation rows, return the remainder. -/
def imputar_manual (s : Store) (cobro_id cliente_id : Int) (importe : ℚ)
    (pairs : List (Int × ℚ)) : Store × ℚ :=
  let r := imputarManualLoop s cobro_id pairs importe
  (appendAllocs s r.1, r.2)

/-- `SELECT p.*, ... FROM planes p JOIN clientes c ON p.cliente_id = c.id
WHERE p.activo = 1 AND c.activo = 1` — active plans of active clients. -/
def planesActivos (s : Store) : List PlanRow :=
  s.planes.filter (fun p => p.activo &&
    s.clientes.any (fun c => c.id == p.cliente_id && c.activo))

/-- `SELECT COUNT(1) FROM devengamientos WHERE cliente_id=? AND plan_id=? AND
periodo_anyo=? AND periodo_mes=?` > 0 — the idempotence guard. -/
def existsDev (s : Store) (p : PlanRow) (anyo mes : Int) : Bool :=
  s.devengamientos.any (fun d =>
    d.cliente_id == p.cliente_id && d.plan_id == some p.id &&
    d.periodo_anyo == anyo && d.periodo_mes == mes)

/-- Accumulated outcome of a generation run. -/
structure GenResult where
  store : Store
  created : Nat
  skipped : Nat
deriving DecidableEq

/-- Per-plan body of the generation loops.  `vigente` and `fecha_dev` are the
points where the three source variants differ (vigency rule, accrual date);
everything else — skip when not in force, skip when the period's accrual
already exists (the existence query runs on the same connection as the
inserts, so it sees this run's own rows), otherwise insert a new accrual
copying the plan's amount — is common to the variants. -/
def genStep (vigente : PlanRow → Bool) (fecha_dev : Fecha) (anyo mes : Int)
    (acc : GenResult) (p : PlanRow) : GenResult :=
  if !vigente p then { acc with skipped := acc.skipped + 1 }
  else if existsDev acc.store p anyo mes then { acc with skipped := acc.skipped + 1 }
  else
    let nid := acc.store.seq_devengamientos + 1
    { store := { acc.store with
        devengamientos := acc.store.devengamientos ++
          [⟨nid, p.cliente_id, some p.id, anyo, mes, p.importe, fecha_dev⟩],
        seq_devengamientos := nid },
      created := acc.created + 1,
      skipped := acc.skipped }

/-- Generation run over the active plans (common shape of the three
variants). -/
def generar_devengamientos (vigente : PlanRow → Bool) (fecha_dev : Fecha)
    (anyo mes : Int) (s : Store) : GenResult :=
  List.foldl (genStep vigente fecha_dev anyo mes) ⟨s, 0, 0⟩ (planesActivos s)

/-- Vigency check of `app.py` 446-455 and `appv2.py` 1081-1091 (exact rule):
skip when `fecha_inicio > periodo_end` (last day of the target month) or when
`fecha_fin < periodo_start` (first day of the target month). -/
def vigente_app (anyo mes : Int) (p : PlanRow) : Bool :=
  if Fecha.blt (ultimo_dia_mes anyo mes) p.fecha_inicio then false
  else
    match p.fecha_fin with
    | some f => !Fecha.blt f ⟨anyo, mes, 1⟩
    | none => true

/-- The `Devengamientos / Generar` handler of `app.py` 436-468 (same logic in
`appv2.py` 1062-1128): exact vigency rule, accruals dated to the last day of
the target month. -/
def generar_devengamientos_app (s : Store) (anyo mes : Int) : GenResult :=
  generar_devengamientos (vigente_app anyo mes) (ultimo_dia_mes anyo mes) anyo mes s

/-- Vigency check of the text-menu `generate_devengamientos_for` (730-743):
skip when `fecha_inicio > periodo_start` (the *first* day of the target
month) and, when an end date exists, skip when `fecha_fin < date(year, month,
28)` (approximate day-28 cutoff). -/
def vigente_menu (anyo mes : Int) (p : PlanRow) : Bool :=
  if Fecha.blt ⟨anyo, mes, 1⟩ p.fecha_inicio then false
  else
    match p.fecha_fin with
    | some f => !Fecha.blt f ⟨anyo, mes, 28⟩
    | none => true

/-- `generate_devengamientos_for` (text-menu 695-784): month must be 1..12
(otherwise the call errors out with no writes); accruals are dated to
`periodo_start`, the *first* day of the target month. -/
def generate_devengamientos_for (s : Store) (anyo mes : Int) : Option GenResult :=
  if 1 ≤ mes ∧ mes ≤ 12 then
    some (generar_devengamientos (vigente_menu anyo mes) ⟨anyo, mes, 1⟩ anyo mes s)
  else none

/-- `registrar_ajuste` (text-menu 1181-1196; same logic in `appv2.py`
1496-1521).  Python's `if ref_id and not devengamiento_exists(ref_id)` treats
`0` as falsy, so the existence check is bypassed for a reference id of `0`;
the INSERT then runs with the reference as given, and SQLite — with `PRAGMA
foreign_keys = ON` set on every connection and the schema's `FOREIGN KEY
(referencia_devengamiento_id) REFERENCES devengamientos(id)` — rejects a
dangling reference, which the source surfaces as a caught error with nothing
stored (`none` here). -/
def registrar_ajuste (s : Store) (cliente_id : Int) (fecha : Fecha)
    (descripcion : String) (monto : ℚ) (tipo : String) (ref_id : Option Int) :
    Option Store :=
  let ref1 : Option Int :=
    match ref_id with
    | some r => if r != 0 && !devengamiento_exists s r then none else some r
    | none => none
  match ref1 with
  | some r =>
    if devengamiento_exists s r then
      some { s with ajustes :=
        s.ajustes ++ [⟨cliente_id, fecha, descripcion, monto, tipo, some r⟩] }
    else none
  | none =>
    some { s with ajustes :=
      s.ajustes ++ [⟨cliente_id, fecha, descripcion, monto, tipo, none⟩] }

/-! Concrete stores used to exercise the definitions. -/

/-- Accrual used in the C1 example ledger. -/
def c1dev : Devengamiento := ⟨7, 1, none, 2024, 1, 300, ⟨2024, 1, 31⟩⟩

/-- C1 ledger: one accrual of 300, a −100 adjustment referencing it, and a
single 50 allocation applied to it. -/
def c1s : Store :=
  { clientes := [⟨1, true⟩], planes := [],
    devengamientos := [c1dev],
    cobros := [⟨1, 1, ⟨2024, 2, 5⟩, 50⟩],
    devengamientos_cobros := [⟨7, 1, 50⟩],
    ajustes := [⟨1, ⟨2024, 2, 1⟩, "bonificacion enero", -100, "bonificacion", some 7⟩],
    seq_devengamientos := 7 }

/-- C2 counterexample ledger: two fully outstanding accruals of 100 each. -/
def c2ce : Store :=
  { clientes := [⟨1, true⟩], planes := [],
    devengamientos := [⟨1, 1, none, 2024, 1, 100, ⟨2024, 1, 31⟩⟩,
                       ⟨2, 1, none, 2024, 2, 100, ⟨2024, 2, 29⟩⟩],
    cobros := [⟨1, 1, ⟨2024, 3, 1⟩, 20001/200⟩],
    devengamientos_cobros := [], ajustes := [], seq_devengamientos := 2 }

/-- C2 witness ledger: one outstanding accrual of 100. -/
def c2w : Store :=
  { clientes := [⟨1, true⟩], planes := [],
    devengamientos := [⟨1, 1, none, 2024, 1, 100, ⟨2024, 1, 31⟩⟩],
    cobros := [⟨1, 1, ⟨2024, 3, 1⟩, 150⟩],
    devengamientos_cobros := [], ajustes := [], seq_devengamientos := 1 }

/-- C3 ledger: accrual id 7 with balance 300, a payment with 800 still
unallocated. -/
def c3s : Store :=
  { clientes := [⟨1, true⟩], planes := [],
    devengamientos := [⟨7, 1, none, 2024, 1, 300, ⟨2024, 1, 31⟩⟩],
    cobros := [⟨1, 1, ⟨2024, 3, 1⟩, 800⟩],
    devengamientos_cobros := [], ajustes := [], seq_devengamientos := 7 }

/-- C4 ledger: accrual of 200, payment of amount 100. -/
def c4s : Store :=
  { clientes := [⟨1, true⟩], planes := [],
    devengamientos := [⟨7, 1, none, 2024, 1, 200, ⟨2024, 1, 31⟩⟩],
    cobros := [⟨1, 1, ⟨2024, 3, 1⟩, 100⟩],
    devengamientos_cobros := [], ajustes := [], seq_devengamientos := 7 }

/-- C5 ledger: one active client with one active plan, nothing generated. -/
def c5s : Store :=
  { clientes := [⟨1, true⟩],
    planes := [⟨1, 1, 1000, ⟨2024, 1, 1⟩, none, true⟩],
    devengamientos := [], cobros := [], devengamientos_cobros := [],
    ajustes := [], seq_devengamientos := 0 }

/-- C6 ledger: two active plans that are in force for 2024-03 under the
exact vigency rule — one starting on 2024-03-02, one ending on 2024-03-10. -/
def c6s : Store :=
  { clientes := [⟨1, true⟩],
    planes := [⟨1, 1, 1000, ⟨2024, 3, 2⟩, none, true⟩,
               ⟨2, 1, 500, ⟨2024, 1, 1⟩, some ⟨2024, 3, 10⟩, true⟩],
    devengamientos := [], cobros := [], devengamientos_cobros := [],
    ajustes := [], seq_devengamientos := 0 }

/-- C7 ledger: one active client with one active plan of amount 1000. -/
def c7s : Store :=
  { clientes := [⟨1, true⟩],
    planes := [⟨1, 1, 1000, ⟨2024, 1, 1⟩, none, true⟩],
    devengamientos := [], cobros := [], devengamientos_cobros := [],
    ajustes := [], seq_devengamientos := 0 }

/-- C8 ledger: two outstanding accruals (2024-01 for 100, 2024-02 for 100),
listed in reverse period order in the table. -/
def c8w : Store :=
  { clientes := [⟨1, true⟩], planes := [],
    devengamientos := [⟨2, 1, none, 2024, 2, 100, ⟨2024, 2, 29⟩⟩,
                       ⟨1, 1, none, 2024, 1, 100, ⟨2024, 1, 31⟩⟩],
    cobros := [⟨1, 1, ⟨2024, 3, 1⟩, 150⟩],
    devengamientos_cobros := [], ajustes := [], seq_devengamientos := 2 }

/-- C9 ledger: one client, one accrual with id 3. -/
def c9s : Store :=
  { clientes := [⟨1, true⟩], planes := [],
    devengamientos := [⟨3, 1, none, 2024, 1, 100, ⟨2024, 1, 31⟩⟩],
    cobros := [], devengamientos_cobros := [], ajustes := [],
    seq_devengamientos := 3 }

/-- C10 ledger: accrual id 7 with balance 300. -/
def c10s : Store :=
  { clientes := [⟨1, true⟩], planes := [],
    devengamientos := [⟨7, 1, none, 2024, 1, 300, ⟨2024, 1, 31⟩⟩],
    cobros := [⟨1, 1, ⟨2024, 3, 1⟩, 800⟩],
    devengamientos_cobros := [], ajustes := [], seq_devengamientos := 7 }

/-! Helper lemmas. -/

/-- `find?` with an injective-on-the-list key resolves a member to itself. -/
theorem find?_eq_of_mem_of_nodup {α : Type} (key : α → Int) (l : List α) (d : α)
    (k : Int) (hk : key d = k) (hmem : d ∈ l) (hnodup : (l.map key).Nodup) :
    l.find? (fun x => key x == k) = some d := by
  induction l with
  | nil => cases hmem
  | cons a t ih =>
    rcases List.mem_cons.mp hmem with rfl | hd
    · simp [List.find?_cons, hk]
    · have hnd : key a ∉ t.map key ∧ (t.map key).Nodup := by
        rw [List.map_cons, List.nodup_cons] at hnodup
        exact hnodup
      have hne : ¬(key a == k) = true := by
        simp only [beq_iff_eq]
        intro he
        exact hnd.1 (by simpa [he, hk] using List.mem_map_of_mem key hd)
      simp only [List.find?_cons, hne]
      exact ih hd hnd.2

/-- Literal `BEq` disequality on `Int`, used when evaluating `find?` and
`filter` on concrete stores. -/
theorem beq_falso {a b : Int} (h : ¬ a = b) : (a == b) = false := by
  simp [h]

/-- The balance of any accrual id is non-negative. -/
theorem saldo_nonneg (s : Store) (i : Int) : 0 ≤ devengamiento_saldo s i := by
  unfold devengamiento_saldo
  cases s.devengamientos.find? (fun d => d.id == i) with
  | none => exact le_refl 0
  | some r => exact le_max_left 0 _

/-! Claim theorems. -/

/-- C1: for every accrual present in the store, the balance calculator
returns `max(0, amount + Σ referencing adjustments − Σ applied allocations)`,
and the returned balance is non-negative for every accrual id. -/
theorem saldo_formula_y_no_negativo (s : Store) (d : Devengamiento)
    (hmem : d ∈ s.devengamientos)
    (hids : (s.devengamientos.map (fun x => x.id)).Nodup) :
    devengamiento_saldo s d.id = max 0 (d.importe + ajSum s d.id - apSum s d.id)
    ∧ ∀ i : Int, 0 ≤ devengamiento_saldo s i := by
  refine ⟨?_, fun i => saldo_nonneg s i⟩
  have hf : s.devengamientos.find? (fun x => x.id == d.id) = some d :=
    find?_eq_of_mem_of_nodup (fun x => x.id) s.devengamientos d d.id rfl hmem hids
  simp [devengamiento_saldo, hf]

/-- C1 witness: the ledger `c1s` instantiates the hypotheses and the
formula yields `max 0 (300 − 100 − 50) = 150`. -/
theorem saldo_formula_y_no_negativo_witness :
    c1dev ∈ c1s.devengamientos
    ∧ (c1s.devengamientos.map (fun x => x.id)).Nodup
    ∧ (devengamiento_saldo c1s c1dev.id
        = max 0 (c1dev.importe + ajSum c1s c1dev.id - apSum c1s c1dev.id)
       ∧ ∀ i : Int, 0 ≤ devengamiento_saldo c1s i)
    ∧ devengamiento_saldo c1s 7 = 150 := by
  refine ⟨by simp [c1s], by simp [c1s], ?_, ?_⟩
  · exact saldo_formula_y_no_negativo c1s c1dev (by simp [c1s]) (by simp [c1s])
  · norm_num [devengamiento_saldo, c1s, c1dev, ajSum, apSum, List.find?]

/-- The automatic walk conserves the payment: total inserted + remainder =
starting amount. -/
theorem autoLoop_conserva (s : Store) (cobro : Int) :
    ∀ (l : List Devengamiento) (r : ℚ),
      allocTotal (imputarAutoLoop s cobro l r).1 + (imputarAutoLoop s cobro l r).2 = r := by
  intro l
  induction l with
  | nil => intro r; simp [imputarAutoLoop, allocTotal]
  | cons d t ih =>
    intro r
    by_cases h1 : r ≤ eps
    · simp [imputarAutoLoop, h1, allocTotal]
    · by_cases h2 : devengamiento_saldo s d.id ≤ eps
      · simpa [imputarAutoLoop, h1, h2] using ih r
      · have h3 := ih (r - min r (devengamiento_saldo s d.id))
        simp only [imputarAutoLoop, h1, h2, if_false, allocTotal, List.map_cons,
          List.sum_cons] at h3 ⊢
        linarith

/-- The automatic walk never overdraws: the remainder stays non-negative. -/
theorem autoLoop_rest_nonneg (s : Store) (cobro : Int) :
    ∀ (l : List Devengamiento) (r : ℚ), 0 ≤ r →
      0 ≤ (imputarAutoLoop s cobro l r).2 := by
  intro l
  induction l with
  | nil => intro r hr; simpa [imputarAutoLoop] using hr
  | cons d t ih =>
    intro r hr
    by_cases h1 : r ≤ eps
    · simpa [imputarAutoLoop, h1] using hr
    · by_cases h2 : devengamiento_saldo s d.id ≤ eps
      · simpa [imputarAutoLoop, h1, h2] using ih r hr
      · have h3 : 0 ≤ r - min r (devengamiento_saldo s d.id) := by
          have := min_le_left r (devengamiento_saldo s d.id)
          linarith
        simpa [imputarAutoLoop, h1, h2] using ih _ h3

/-- The manual directive loop conserves the payment: total inserted +
remainder = starting amount. -/
theorem manualLoop_conserva (s : Store) (cobro : Int) :
    ∀ (ps : List (Int × ℚ)) (r : ℚ),
      allocTotal (imputarManualLoop s cobro ps r).1
        + (imputarManualLoop s cobro ps r).2 = r := by
  intro ps
  induction ps with
  | nil => intro r; simp [imputarManualLoop, allocTotal]
  | cons p t ih =>
    intro r
    obtain ⟨did, m⟩ := p
    by_cases h1 : m ≤ 0
    · simpa [imputarManualLoop, h1] using ih r
    · by_cases hex : devengamiento_exists s did = true
      · simp only [imputarManualLoop, hex, h1, if_false, Bool.not_true,
          Bool.false_eq_true, gt_iff_lt]
        set m1 := if devengamiento_saldo s did + eps < m
          then devengamiento_saldo s did else m with hm1
        set m2 := if r + eps < m1 then r else m1 with hm2
        by_cases h2 : m2 ≤ 0
        · simpa [h2] using ih r
        · by_cases h3 : r - m2 ≤ eps
          · simp [h2, h3, allocTotal]
          · have h4 := ih (r - m2)
            simp only [h2, h3, if_false, allocTotal, List.map_cons,
              List.sum_cons] at h4 ⊢
            linarith
      · have hex2 : devengamiento_exists s did = false := by
          revert hex; cases devengamiento_exists s did <;> simp
        simpa [imputarManualLoop, h1, hex2] using ih r

/-- The manual directive loop keeps the remainder above `-eps`: each inserted
amount can exceed the pre-insert remainder by at most the 0.01 tolerance. -/
theorem manualLoop_rest_ge (s : Store) (cobro : Int) :
    ∀ (ps : List (Int × ℚ)) (r : ℚ), -eps ≤ r →
      -eps ≤ (imputarManualLoop s cobro ps r).2 := by
  intro ps
  induction ps with
  | nil => intro r hr; simpa [imputarManualLoop] using hr
  | cons p t ih =>
    intro r hr
    obtain ⟨did, m⟩ := p
    by_cases h1 : m ≤ 0
    · simpa [imputarManualLoop, h1] using ih r hr
    · by_cases hex : devengamiento_exists s did = true
      · simp only [imputarManualLoop, hex, h1, if_false, Bool.not_true,
          Bool.false_eq_true, gt_iff_lt]
        set m1 := if devengamiento_saldo s did + eps < m
          then devengamiento_saldo s did else m with hm1
        set m2 := if r + eps < m1 then r else m1 with hm2
        have hm2le : m2 ≤ r + eps := by
          rw [hm2]
          by_cases hc : r + eps < m1
          · simp only [if_pos hc]
            have : (0 : ℚ) ≤ eps := by norm_num [eps]
            linarith
          · simpa [if_neg hc] using le_of_not_lt hc
        by_cases h2 : m2 ≤ 0
        · simpa [h2] using ih r hr
        · by_cases h3 : r - m2 ≤ eps
          · rw [if_neg h2, if_pos h3]
            show -eps ≤ r - m2
            linarith
          · have h4 : -eps ≤ r - m2 := by linarith
            simpa [h2, h3] using ih _ h4
      · have hex2 : devengamiento_exists s did = false := by
          revert hex; cases devengamiento_exists s did <;> simp
        simpa [imputarManualLoop, h1, hex2] using ih r hr

/-- C4 (amended): for a single allocation run invoked with the payment's
amount `A ≥ 0`, the automatic walk inserts allocations summing to at most
`A`, and the manual directive loop inserts allocations summing to at most
`A + 0.01` — the strict bound fails for the manual path by up to the 0.01
tolerance (see the counterexample). -/
theorem imputaciones_no_exceden_cobro (s : Store) (cobro cliente : Int)
    (A : ℚ) (pairs : List (Int × ℚ)) (hA : 0 ≤ A) :
    allocTotal (imputarAutoLoop s cobro (devsCliente s cliente) A).1 ≤ A
    ∧ allocTotal (imputarManualLoop s cobro pairs A).1 ≤ A + eps := by
  constructor
  · have h1 := autoLoop_conserva s cobro (devsCliente s cliente) A
    have h2 := autoLoop_rest_nonneg s cobro (devsCliente s cliente) A hA
    linarith
  · have h1 := manualLoop_conserva s cobro pairs A
    have h2 := manualLoop_rest_ge s cobro pairs A
      (le_trans (by norm_num [eps] : (-eps : ℚ) ≤ 0) hA)
    linarith

/-- C4 witness: at `c4s` with `A = 100`, both bounds hold. -/
theorem imputaciones_no_exceden_cobro_witness :
    (0 : ℚ) ≤ 100
    ∧ (allocTotal (imputarAutoLoop c4s 1 (devsCliente c4s 1) 100).1 ≤ 100
      ∧ allocTotal (imputarManualLoop c4s 1 [((7 : Int), (100 : ℚ))] 100).1 ≤ 100 + eps) :=
  ⟨by norm_num, imputaciones_no_exceden_cobro c4s 1 1 100 [(7, 100)] (by norm_num)⟩

/-- C4 counterexample: in `c4s` (payment amount 100, accrual balance 200) the
manual directive `[(7, 100.005)]` inserts a total of 100.005 > 100 — the sum
of the allocations linked to the payment exceeds the payment's amount. -/
theorem imputaciones_no_exceden_cobro_contraejemplo :
    (((imputar_manual c4s 1 1 100 [(7, 20001/200)]).1.devengamientos_cobros.filter
        (fun x => x.cobro_id == 1)).map (fun x => x.monto)).sum = 20001/200
    ∧ c4s.cobros.map (fun c => c.importe) = [100]
    ∧ (100 : ℚ) < 20001/200 := by
  refine ⟨?_, by norm_num [c4s], by norm_num⟩
  norm_num [imputar_manual, imputarManualLoop, appendAllocs, devengamiento_saldo,
    devengamiento_exists, c4s, ajSum, apSum, List.find?, eps]

/-- A generation step never touches the `planes` and `clientes` tables. -/
theorem genStep_planes_clientes (vig : PlanRow → Bool) (fecha : Fecha)
    (anyo mes : Int) (acc : GenResult) (p : PlanRow) :
    (genStep vig fecha anyo mes acc p).store.planes = acc.store.planes
    ∧ (genStep vig fecha anyo mes acc p).store.clientes = acc.store.clientes := by
  unfold genStep
  split_ifs <;> exact ⟨rfl, rfl⟩

/-- A generation step either leaves the accrual table unchanged or appends
exactly one row for the processed plan. -/
theorem genStep_devs (vig : PlanRow → Bool) (fecha : Fecha) (anyo mes : Int)
    (acc : GenResult) (p : PlanRow) :
    (genStep vig fecha anyo mes acc p).store.devengamientos
      = acc.store.devengamientos
    ∨ ∃ nid, vig p = true
        ∧ (genStep vig fecha anyo mes acc p).store.devengamientos
          = acc.store.devengamientos
            ++ [⟨nid, p.cliente_id, some p.id, anyo, mes, p.importe, fecha⟩] := by
  unfold genStep
  split_ifs with hv he
  · exact Or.inl rfl
  · exact Or.inl rfl
  · exact Or.inr ⟨acc.store.seq_devengamientos + 1, by simpa using hv, rfl⟩

/-- A generation step preserves the idempotence guard. -/
theorem existsDev_genStep (vig : PlanRow → Bool) (fecha : Fecha) (anyo mes : Int)
    (acc : GenResult) (p q : PlanRow)
    (h : existsDev acc.store p anyo mes = true) :
    existsDev (genStep vig fecha anyo mes acc q).store p anyo mes = true := by
  rcases genStep_devs vig fecha anyo mes acc q with he | ⟨nid, _, he⟩ <;>
    unfold existsDev at h ⊢ <;> rw [he]
  · exact h
  · simp only [List.any_append, h, Bool.true_or]

/-- The whole generation fold preserves the idempotence guard. -/
theorem existsDev_fold (vig : PlanRow → Bool) (fecha : Fecha) (anyo mes : Int) :
    ∀ (l : List PlanRow) (acc : GenResult) (p : PlanRow),
      existsDev acc.store p anyo mes = true →
      existsDev (List.foldl (genStep vig fecha anyo mes) acc l).store p anyo mes
        = true := by
  intro l
  induction l with
  | nil => intro acc p h; simpa using h
  | cons q t ih =>
    intro acc p h
    exact ih _ p (existsDev_genStep vig fecha anyo mes acc p q h)

/-- After a generation run, every in-force plan of the processed list has its
accrual for the period. -/
theorem fold_cubre (vig : PlanRow → Bool) (fecha : Fecha) (anyo mes : Int) :
    ∀ (l : List PlanRow) (acc : GenResult) (p : PlanRow),
      p ∈ l → vig p = true →
      existsDev (List.foldl (genStep vig fecha anyo mes) acc l).store p anyo mes
        = true := by
  intro l
  induction l with
  | nil => intro acc p h; cases h
  | cons q t ih =>
    intro acc p hmem hvig
    rcases List.mem_cons.mp hmem with rfl | ht
    · simp only [List.foldl_cons]
      apply existsDev_fold
      unfold genStep
      cases he : existsDev acc.store p anyo mes
      · simp only [hvig, Bool.not_true, Bool.false_eq_true, if_false, he]
        simp [existsDev, List.any_append]
      · simp [hvig, he]
    · exact ih _ p ht hvig

/-- A generation run over plans whose in-force members already have their
accrual is a no-op: zero creations, everything skipped, store unchanged. -/
theorem fold_sin_cambios (vig : PlanRow → Bool) (fecha : Fecha) (anyo mes : Int) :
    ∀ (l : List PlanRow) (st : Store) (c k : Nat),
      (∀ p ∈ l, vig p = true → existsDev st p anyo mes = true) →
      List.foldl (genStep vig fecha anyo mes) ⟨st, c, k⟩ l = ⟨st, c, k + l.length⟩ := by
  intro l
  induction l with
  | nil => intro st c k _; simp
  | cons q t ih =>
    intro st c k h
    have hstep : genStep vig fecha anyo mes ⟨st, c, k⟩ q = ⟨st, c, k + 1⟩ := by
      unfold genStep
      cases hv : vig q
      · simp [hv]
      · have he := h q (List.mem_cons_self q t) hv
        simp [hv, he]
    rw [List.foldl_cons, hstep,
      ih st c (k + 1) (fun p hp hv => h p (List.mem_cons_of_mem q hp) hv)]
    congr 1
    simp only [List.length_cons]
    omega

/-- The generation fold never touches `planes` or `clientes`. -/
theorem fold_planes_clientes (vig : PlanRow → Bool) (fecha : Fecha) (anyo mes : Int) :
    ∀ (l : List PlanRow) (acc : GenResult),
      (List.foldl (genStep vig fecha anyo mes) acc l).store.planes = acc.store.planes
      ∧ (List.foldl (genStep vig fecha anyo mes) acc l).store.clientes
        = acc.store.clientes := by
  intro l
  induction l with
  | nil => intro acc; exact ⟨rfl, rfl⟩
  | cons q t ih =>
    intro acc
    have h1 := genStep_planes_clientes vig fecha anyo mes acc q
    have h2 := ih (genStep vig fecha anyo mes acc q)
    exact ⟨h2.1.trans h1.1, h2.2.trans h1.2⟩

/-- `planesActivos` only reads the `planes` and `clientes` tables. -/
theorem planesActivos_congr (s1 s2 : Store) (hp : s1.planes = s2.planes)
    (hc : s1.clientes = s2.clientes) : planesActivos s1 = planesActivos s2 := by
  unfold planesActivos
  rw [hp, hc]

/-- A generation run on a store whose in-force active plans all already have
their accrual for the period is a no-op. -/
theorem generar_sin_cambios (vig : PlanRow → Bool) (fecha : Fecha)
    (anyo mes : Int) (st : Store)
    (h : ∀ p ∈ planesActivos st, vig p = true → existsDev st p anyo mes = true) :
    generar_devengamientos vig fecha anyo mes st
      = ⟨st, 0, (planesActivos st).length⟩ := by
  unfold generar_devengamientos
  rw [fold_sin_cambios vig fecha anyo mes (planesActivos st) st 0 0 h]
  simp

/-- Running any generation variant a second time on its own output creates
nothing and leaves the store unchanged. -/
theorem generar_idempotente (vig : PlanRow → Bool) (fecha : Fecha)
    (anyo mes : Int) (s : Store) :
    generar_devengamientos vig fecha anyo mes
        (generar_devengamientos vig fecha anyo mes s).store
      = ⟨(generar_devengamientos vig fecha anyo mes s).store, 0,
         (planesActivos (generar_devengamientos vig fecha anyo mes s).store).length⟩ := by
  have hpc := fold_planes_clientes vig fecha anyo mes (planesActivos s) ⟨s, 0, 0⟩
  have hplanes : planesActivos
      (generar_devengamientos vig fecha anyo mes s).store = planesActivos s :=
    planesActivos_congr _ _ hpc.1 hpc.2
  apply generar_sin_cambios
  rw [hplanes]
  intro p hp hv
  exact fold_cubre vig fecha anyo mes (planesActivos s) ⟨s, 0, 0⟩ p hp hv

/-- The boolean date comparison agrees with the propositional order. -/
theorem Fecha.blt_iff (a b : Fecha) : Fecha.blt a b = true ↔ Fecha.lt a b := by
  unfold Fecha.blt Fecha.lt
  simp only [Bool.or_eq_true, Bool.and_eq_true, decide_eq_true_eq, beq_iff_eq]

/-- Every row a generation run adds comes from a processed plan: it carries
the plan's client and id, the target period, the plan's amount at generation
time, and the run's accrual date. -/
theorem fold_filas (vig : PlanRow → Bool) (fecha : Fecha) (anyo mes : Int) :
    ∀ (l : List PlanRow) (acc : GenResult) (d : Devengamiento),
      d ∈ (List.foldl (genStep vig fecha anyo mes) acc l).store.devengamientos →
      d ∈ acc.store.devengamientos
      ∨ ∃ p, p ∈ l ∧ ∃ nid,
          d = ⟨nid, p.cliente_id, some p.id, anyo, mes, p.importe, fecha⟩ := by
  intro l
  induction l with
  | nil => intro acc d h; exact Or.inl h
  | cons q t ih =>
    intro acc d h
    rcases ih _ d h with hmem | ⟨p, hp, hni⟩
    · rcases genStep_devs vig fecha anyo mes acc q with he | ⟨nid, _, he⟩
      · rw [he] at hmem
        exact Or.inl hmem
      · rw [he] at hmem
        rcases List.mem_append.mp hmem with h1 | h2
        · exact Or.inl h1
        · exact Or.inr ⟨q, List.mem_cons_self q t, nid, by simpa using h2⟩
    · exact Or.inr ⟨p, List.mem_cons_of_mem q hp, hni⟩

/-- C5: generation for a fixed (year, month) is idempotent in both generator
variants — a second run on the unchanged store creates zero accruals, skips
every active plan, and leaves the store identical. -/
theorem generacion_idempotente (s : Store) (anyo mes : Int) (r1 : GenResult)
    (h1 : generate_devengamientos_for s anyo mes = some r1) :
    ((generar_devengamientos_app
        (generar_devengamientos_app s anyo mes).store anyo mes).created = 0
     ∧ (generar_devengamientos_app
        (generar_devengamientos_app s anyo mes).store anyo mes).store
        = (generar_devengamientos_app s anyo mes).store)
    ∧ generate_devengamientos_for r1.store anyo mes
        = some ⟨r1.store, 0, (planesActivos r1.store).length⟩ := by
  refine ⟨⟨?_, ?_⟩, ?_⟩
  · unfold generar_devengamientos_app
    rw [generar_idempotente]
  · unfold generar_devengamientos_app
    rw [generar_idempotente]
  · unfold generate_devengamientos_for at h1 ⊢
    by_cases hm : 1 ≤ mes ∧ mes ≤ 12
    · rw [if_pos hm] at h1 ⊢
      have h2 : r1 = generar_devengamientos (vigente_menu anyo mes)
          ⟨anyo, mes, 1⟩ anyo mes s := by
        injection h1 with h
        exact h.symm
      subst h2
      rw [generar_idempotente]
    · rw [if_neg hm] at h1
      cases h1

/-- C5 witness: `c5s` (one active plan) for 2024-03 — the first run exists
and the second run is the stated no-op. -/
theorem generacion_idempotente_witness :
    generate_devengamientos_for c5s 2024 3
      = some (generar_devengamientos (vigente_menu 2024 3) ⟨2024, 3, 1⟩ 2024 3 c5s)
    ∧ (((generar_devengamientos_app
          (generar_devengamientos_app c5s 2024 3).store 2024 3).created = 0
       ∧ (generar_devengamientos_app
          (generar_devengamientos_app c5s 2024 3).store 2024 3).store
          = (generar_devengamientos_app c5s 2024 3).store)
      ∧ generate_devengamientos_for
          (generar_devengamientos (vigente_menu 2024 3) ⟨2024, 3, 1⟩ 2024 3 c5s).store
          2024 3
        = some ⟨(generar_devengamientos (vigente_menu 2024 3) ⟨2024, 3, 1⟩ 2024 3 c5s).store,
                0,
                (planesActivos
                  (generar_devengamientos (vigente_menu 2024 3)
                    ⟨2024, 3, 1⟩ 2024 3 c5s).store).length⟩) := by
  have h1 : generate_devengamientos_for c5s 2024 3
      = some (generar_devengamientos (vigente_menu 2024 3) ⟨2024, 3, 1⟩ 2024 3 c5s) := by
    unfold generate_devengamientos_for
    norm_num
  exact ⟨h1, generacion_idempotente c5s 2024 3 _ h1⟩

/-- C6: the exact-rule generators (`app.py`, `appv2.py`) skip a plan exactly
when its start date is after the period's last day or its end date is before
the period's first day, and a plan with no end date is in force from its
start date; the text-menu generator does *not* implement this boundary — on
`c6s` (a plan starting 2024-03-02 and a plan ending 2024-03-10, both in
force for 2024-03 under the claimed rule) it skips both, while the exact
generator creates both accruals. -/
theorem vigencia_frontera :
    (∀ (anyo mes : Int) (p : PlanRow),
        vigente_app anyo mes p = false ↔
          (Fecha.lt (ultimo_dia_mes anyo mes) p.fecha_inicio
           ∨ ∃ f, p.fecha_fin = some f ∧ Fecha.lt f ⟨anyo, mes, 1⟩))
    ∧ (∀ (anyo mes : Int) (p : PlanRow),
        vigente_app anyo mes { p with fecha_fin := none } = true ↔
          ¬ Fecha.lt (ultimo_dia_mes anyo mes) p.fecha_inicio)
    ∧ generate_devengamientos_for c6s 2024 3 = some ⟨c6s, 0, 2⟩
    ∧ (generar_devengamientos_app c6s 2024 3).created = 2 := by
  refine ⟨?_, ?_, ?_, ?_⟩
  · intro anyo mes p
    unfold vigente_app
    cases hb : Fecha.blt (ultimo_dia_mes anyo mes) p.fecha_inicio
    · have hnb : ¬ Fecha.lt (ultimo_dia_mes anyo mes) p.fecha_inicio := by
        rw [← Fecha.blt_iff, hb]
        simp
      cases hf : p.fecha_fin with
      | none => simp [hnb, hf]
      | some f => simp [hnb, hf, Fecha.blt_iff]
    · have hlt : Fecha.lt (ultimo_dia_mes anyo mes) p.fecha_inicio :=
        (Fecha.blt_iff _ _).mp hb
      simp [hb, hlt]
  · intro anyo mes p
    unfold vigente_app
    cases hb : Fecha.blt (ultimo_dia_mes anyo mes) p.fecha_inicio
    · have hnb : ¬ Fecha.lt (ultimo_dia_mes anyo mes) p.fecha_inicio := by
        rw [← Fecha.blt_iff, hb]
        simp
      simp [hnb]
    · have hlt : Fecha.lt (ultimo_dia_mes anyo mes) p.fecha_inicio :=
        (Fecha.blt_iff _ _).mp hb
      simp [hlt]
  · unfold generate_devengamientos_for generar_devengamientos
    norm_num [c6s, planesActivos, genStep, existsDev, vigente_menu, Fecha.blt]
  · unfold generar_devengamientos_app generar_devengamientos
    norm_num [c6s, planesActivos, genStep, existsDev, vigente_app, Fecha.blt,
      ultimo_dia_mes, diasEnMes, esBisiesto]

/-- C7 (amended): every accrual the dashboard generators (`app.py`,
`appv2.py`) create for (year, month) is dated to the last calendar day of
the month and copies the plan's amount at generation time; the text-menu
generator copies the amount identically but dates the accrual to the *first*
day of the month (see the counterexample). -/
theorem devengada_fecha_importe :
    (∀ (s : Store) (anyo mes : Int) (d : Devengamiento),
        d ∈ (generar_devengamientos_app s anyo mes).store.devengamientos →
        d ∈ s.devengamientos
        ∨ ∃ p, p ∈ planesActivos s ∧ d.cliente_id = p.cliente_id
            ∧ d.plan_id = some p.id ∧ d.importe = p.importe
            ∧ d.periodo_anyo = anyo ∧ d.periodo_mes = mes
            ∧ d.fecha_devengada = ultimo_dia_mes anyo mes)
    ∧ (∀ (s : Store) (anyo mes : Int) (r : GenResult) (d : Devengamiento),
        generate_devengamientos_for s anyo mes = some r →
        d ∈ r.store.devengamientos →
        d ∈ s.devengamientos
        ∨ ∃ p, p ∈ planesActivos s ∧ d.cliente_id = p.cliente_id
            ∧ d.plan_id = some p.id ∧ d.importe = p.importe
            ∧ d.periodo_anyo = anyo ∧ d.periodo_mes = mes
            ∧ d.fecha_devengada = ⟨anyo, mes, 1⟩) := by
  constructor
  · intro s anyo mes d hd
    rcases fold_filas (vigente_app anyo mes) (ultimo_dia_mes anyo mes) anyo mes
        (planesActivos s) ⟨s, 0, 0⟩ d hd with hmem | ⟨p, hp, nid, hrow⟩
    · exact Or.inl hmem
    · subst hrow
      exact Or.inr ⟨p, hp, rfl, rfl, rfl, rfl, rfl, rfl⟩
  · intro s anyo mes r d hr hd
    unfold generate_devengamientos_for at hr
    by_cases hm : 1 ≤ mes ∧ mes ≤ 12
    · rw [if_pos hm] at hr
      have h2 : r = generar_devengamientos (vigente_menu anyo mes)
          ⟨anyo, mes, 1⟩ anyo mes s := by
        injection hr with h
        exact h.symm
      subst h2
      rcases fold_filas (vigente_menu anyo mes) ⟨anyo, mes, 1⟩ anyo mes
          (planesActivos s) ⟨s, 0, 0⟩ d hd with hmem | ⟨p, hp, nid, hrow⟩
      · exact Or.inl hmem
      · subst hrow
        exact Or.inr ⟨p, hp, rfl, rfl, rfl, rfl, rfl, rfl⟩
    · rw [if_neg hm] at hr
      cases hr

/-- C7 witness: the accrual the exact generator creates from `c7s` for
2024-03 satisfies the amended characterization. -/
theorem devengada_fecha_importe_witness :
    (⟨1, 1, some 1, 2024, 3, 1000, ⟨2024, 3, 31⟩⟩ : Devengamiento)
        ∈ (generar_devengamientos_app c7s 2024 3).store.devengamientos
    ∧ ((⟨1, 1, some 1, 2024, 3, 1000, ⟨2024, 3, 31⟩⟩ : Devengamiento)
          ∈ c7s.devengamientos
       ∨ ∃ p, p ∈ planesActivos c7s
           ∧ (⟨1, 1, some 1, 2024, 3, 1000, ⟨2024, 3, 31⟩⟩ : Devengamiento).cliente_id
              = p.cliente_id
           ∧ (⟨1, 1, some 1, 2024, 3, 1000, ⟨2024, 3, 31⟩⟩ : Devengamiento).plan_id
              = some p.id
           ∧ (⟨1, 1, some 1, 2024, 3, 1000, ⟨2024, 3, 31⟩⟩ : Devengamiento).importe
              = p.importe
           ∧ (⟨1, 1, some 1, 2024, 3, 1000, ⟨2024, 3, 31⟩⟩ : Devengamiento).periodo_anyo
              = 2024
           ∧ (⟨1, 1, some 1, 2024, 3, 1000, ⟨2024, 3, 31⟩⟩ : Devengamiento).periodo_mes
              = 3
           ∧ (⟨1, 1, some 1, 2024, 3, 1000, ⟨2024, 3, 31⟩⟩ : Devengamiento).fecha_devengada
              = ultimo_dia_mes 2024 3) := by
  have hmem : (⟨1, 1, some 1, 2024, 3, 1000, ⟨2024, 3, 31⟩⟩ : Devengamiento)
      ∈ (generar_devengamientos_app c7s 2024 3).store.devengamientos := by
    unfold generar_devengamientos_app generar_devengamientos
    norm_num [c7s, planesActivos, genStep, existsDev, vigente_app, Fecha.blt,
      ultimo_dia_mes, diasEnMes, esBisiesto]
  exact ⟨hmem, devengada_fecha_importe.1 c7s 2024 3 _ hmem⟩

/-- C7 counterexample: the text-menu generator dates the accrual it creates
from `c7s` for 2024-03 to 2024-03-01, not to the last calendar day
2024-03-31. -/
theorem devengada_fecha_contraejemplo :
    (generate_devengamientos_for c7s 2024 3).map
        (fun r => r.store.devengamientos.map (fun d => d.fecha_devengada))
      = some [⟨2024, 3, 1⟩]
    ∧ ultimo_dia_mes 2024 3 = ⟨2024, 3, 31⟩
    ∧ (⟨2024, 3, 1⟩ : Fecha) ≠ ⟨2024, 3, 31⟩ := by
  refine ⟨?_, ?_, ?_⟩
  · unfold generate_devengamientos_for generar_devengamientos
    norm_num [c7s, planesActivos, genStep, existsDev, vigente_menu, Fecha.blt]
  · norm_num [ultimo_dia_mes, diasEnMes, esBisiesto]
  · intro h
    cases h

/-- A natural multiple of a granularity above the epsilon that is ≤ eps must
be zero. -/
theorem mult_le_eps_cero {a : ℕ} {d : ℚ} (hd : eps < d)
    (h : (a : ℚ) * d ≤ eps) : (a : ℚ) * d = 0 := by
  rcases Nat.eq_zero_or_pos a with rfl | ha
  · simp
  · exfalso
    have h1 : (1 : ℚ) ≤ (a : ℚ) := by exact_mod_cast ha
    have h2 : (0 : ℚ) ≤ d := le_of_lt (lt_trans (by norm_num [eps]) hd)
    nlinarith

/-- Arithmetic step of greedy allocation: paying `min x y` against the first
balance `y` and then allocating the rest greedily against a total `B ≥ 0`
equals greedy allocation against `y + B`. -/
theorem min_max_paso (x y B : ℚ) (hB : 0 ≤ B) :
    min x y + min (x - min x y) B = min x (y + B)
    ∧ max 0 (x - min x y - B) = max 0 (x - (y + B)) := by
  constructor
  · rcases le_total x y with h | h
    · rw [min_eq_left h, sub_self, min_eq_left hB, min_eq_left (by linarith)]
      ring
    · rw [min_eq_right h]
      rcases le_total (x - y) B with h2 | h2
      · rw [min_eq_left h2, min_eq_left (by linarith)]
        ring
      · rw [min_eq_right h2, min_eq_right (by linarith)]
  · rcases le_total x y with h | h
    · rw [min_eq_left h, sub_self, zero_sub,
        max_eq_left (by linarith), max_eq_left (by linarith)]
    · rw [min_eq_right h, sub_sub]

/-- Balances are non-negative, so any sum of balances is. -/
theorem suma_saldos_nonneg (s : Store) (l : List Devengamiento) :
    0 ≤ (l.map (fun d => devengamiento_saldo s d.id)).sum := by
  apply List.sum_nonneg
  intro x hx
  rcases List.mem_map.mp hx with ⟨d, _, rfl⟩
  exact saldo_nonneg s d.id

/-- When the starting amount and every balance in the list are natural
multiples of a granularity `d > eps`, the automatic walk is exactly greedy:
it allocates `min(amount, total balance)` and leaves `max(0, amount − total
balance)`. -/
theorem autoLoop_exacto (s : Store) (cobro : Int) (d : ℚ) (hd : eps < d) :
    ∀ (l : List Devengamiento) (a : ℕ),
      (∀ x ∈ l, ∃ k : ℕ, devengamiento_saldo s x.id = (k : ℚ) * d) →
      allocTotal (imputarAutoLoop s cobro l ((a : ℚ) * d)).1
        = min ((a : ℚ) * d) ((l.map (fun x => devengamiento_saldo s x.id)).sum)
      ∧ (imputarAutoLoop s cobro l ((a : ℚ) * d)).2
        = max 0 ((a : ℚ) * d - (l.map (fun x => devengamiento_saldo s x.id)).sum) := by
  have hd0 : (0 : ℚ) ≤ d := le_of_lt (lt_trans (by norm_num [eps]) hd)
  intro l
  induction l with
  | nil =>
    intro a _
    have ha : 0 ≤ (a : ℚ) * d := mul_nonneg (Nat.cast_nonneg a) hd0
    constructor
    · simp [imputarAutoLoop, allocTotal, min_eq_right ha]
    · simp [imputarAutoLoop, max_eq_right ha]
  | cons x t ih =>
    intro a hsal
    obtain ⟨k, hk⟩ := hsal x (List.mem_cons_self x t)
    have hBt : 0 ≤ (t.map (fun y => devengamiento_saldo s y.id)).sum :=
      suma_saldos_nonneg s t
    by_cases hr : (a : ℚ) * d ≤ eps
    · have h0 : (a : ℚ) * d = 0 := mult_le_eps_cero hd hr
      have hsum : 0 ≤ devengamiento_saldo s x.id
          + (t.map (fun y => devengamiento_saldo s y.id)).sum := by
        have := saldo_nonneg s x.id
        linarith
      constructor
      · simp only [imputarAutoLoop, if_pos hr, allocTotal, List.map_nil,
          List.sum_nil, List.map_cons, List.sum_cons]
        rw [h0, min_eq_left hsum]
      · simp only [imputarAutoLoop, if_pos hr, List.map_cons, List.sum_cons]
        rw [h0, max_eq_left (by linarith)]
    · by_cases hs : devengamiento_saldo s x.id ≤ eps
      · have h0 : devengamiento_saldo s x.id = 0 := by
          rw [hk] at hs ⊢
          exact mult_le_eps_cero hd hs
        have ihh := ih a (fun y hy => hsal y (List.mem_cons_of_mem x hy))
        constructor
        · simp only [imputarAutoLoop, if_neg hr, if_pos hs, List.map_cons,
            List.sum_cons]
          rw [ihh.1, h0, zero_add]
        · simp only [imputarAutoLoop, if_neg hr, if_pos hs, List.map_cons,
            List.sum_cons]
          rw [ihh.2, h0, zero_add]
      · have hmin : min ((a : ℚ) * d) (devengamiento_saldo s x.id)
            = ((min a k : ℕ) : ℚ) * d := by
          rw [hk, Nat.cast_min, min_mul_of_nonneg _ _ hd0]
        have hsub : (a : ℚ) * d - min ((a : ℚ) * d) (devengamiento_saldo s x.id)
            = ((a - min a k : ℕ) : ℚ) * d := by
          rw [hmin, Nat.cast_sub (min_le_left a k), sub_mul]
        have ihh := ih (a - min a k) (fun y hy => hsal y (List.mem_cons_of_mem x hy))
        rw [← hsub] at ihh
        have hpaso := min_max_paso ((a : ℚ) * d) (devengamiento_saldo s x.id)
          ((t.map (fun y => devengamiento_saldo s y.id)).sum) (by exact hBt)
        constructor
        · simp only [imputarAutoLoop, if_neg hr, if_neg hs, allocTotal,
            List.map_cons, List.sum_cons]
          simp only [allocTotal] at ihh
          rw [ihh.1]
          exact hpaso.1
        · simp only [imputarAutoLoop, if_neg hr, if_neg hs, List.map_cons,
            List.sum_cons]
          rw [ihh.2]
          exact hpaso.2

/-- C2 (amended): when the payment amount `A` and every accrual balance of
the client are natural multiples of one granularity larger than the 0.01
epsilon (e.g. whole currency units), automatic allocation inserts
allocations totalling exactly `min(A, B)` and returns remainder
`max(0, A − B)`, where `B` is the client's total outstanding balance;
without the granularity condition sub-epsilon residues are left unallocated
(see the counterexample). -/
theorem imputacion_automatica_conserva (s : Store) (cobro cliente : Int)
    (A d : ℚ) (a : ℕ) (hd : eps < d) (hA : A = (a : ℚ) * d)
    (hsaldos : ∀ x ∈ devsCliente s cliente, ∃ k : ℕ,
      devengamiento_saldo s x.id = (k : ℚ) * d) :
    allocTotal (imputarAutoLoop s cobro (devsCliente s cliente) A).1
      = min A (((devsCliente s cliente).map (fun x => devengamiento_saldo s x.id)).sum)
    ∧ (imputar_automatico_db s cobro cliente A).2
      = max 0 (A - ((devsCliente s cliente).map (fun x => devengamiento_saldo s x.id)).sum)
    ∧ (imputar_automatico_db s cobro cliente A).1.devengamientos_cobros
      = s.devengamientos_cobros
        ++ (imputarAutoLoop s cobro (devsCliente s cliente) A).1 := by
  subst hA
  have h := autoLoop_exacto s cobro d hd (devsCliente s cliente) a hsaldos
  exact ⟨h.1, h.2, rfl⟩

/-- C2 witness: in `c2w` (single balance 100) a payment of 150 at unit
granularity allocates `min(150, 100) = 100` and leaves `max(0, 50) = 50`. -/
theorem imputacion_automatica_conserva_witness :
    eps < 1 ∧ (150 : ℚ) = ((150 : ℕ) : ℚ) * 1
    ∧ (allocTotal (imputarAutoLoop c2w 1 (devsCliente c2w 1) 150).1
        = min 150 (((devsCliente c2w 1).map (fun x => devengamiento_saldo c2w x.id)).sum)
      ∧ (imputar_automatico_db c2w 1 1 150).2
        = max 0 (150 - ((devsCliente c2w 1).map (fun x => devengamiento_saldo c2w x.id)).sum)
      ∧ (imputar_automatico_db c2w 1 1 150).1.devengamientos_cobros
        = c2w.devengamientos_cobros
          ++ (imputarAutoLoop c2w 1 (devsCliente c2w 1) 150).1) := by
  have hlist : devsCliente c2w 1 = [⟨1, 1, none, 2024, 1, 100, ⟨2024, 1, 31⟩⟩] := by
    simp only [devsCliente, c2w, List.filter, List.insertionSort, List.orderedInsert]
  have hsaldos : ∀ x ∈ devsCliente c2w 1, ∃ k : ℕ,
      devengamiento_saldo c2w x.id = (k : ℚ) * 1 := by
    rw [hlist]
    intro x hx
    rw [List.mem_singleton] at hx
    subst hx
    refine ⟨100, ?_⟩
    norm_num [devengamiento_saldo, c2w, ajSum, apSum, List.find?]
  exact ⟨by norm_num [eps], by norm_num,
    imputacion_automatica_conserva c2w 1 1 150 1 150 (by norm_num [eps])
      (by norm_num) hsaldos⟩

/-- C2 counterexample: in `c2ce` (balances 100 and 100) a payment of 100.005
allocates only 100 — leaving a 0.005 sub-epsilon residue — so the total is
not `min(A, B) = 100.005` and the remainder is not `max(0, A − B) = 0`. -/
theorem imputacion_automatica_conserva_contraejemplo :
    allocTotal (imputarAutoLoop c2ce 1 (devsCliente c2ce 1) (20001/200)).1 = 100
    ∧ (imputar_automatico_db c2ce 1 1 (20001/200)).2 = 1/200
    ∧ min (20001/200 : ℚ)
        (((devsCliente c2ce 1).map (fun x => devengamiento_saldo c2ce x.id)).sum)
      = 20001/200
    ∧ max 0 ((20001/200 : ℚ)
        - ((devsCliente c2ce 1).map (fun x => devengamiento_saldo c2ce x.id)).sum)
      = 0
    ∧ (100 : ℚ) ≠ 20001/200 ∧ (1/200 : ℚ) ≠ 0 := by
  have hlist : devsCliente c2ce 1
      = [⟨1, 1, none, 2024, 1, 100, ⟨2024, 1, 31⟩⟩,
         ⟨2, 1, none, 2024, 2, 100, ⟨2024, 2, 29⟩⟩] := by
    simp only [devsCliente, c2ce, List.filter, List.insertionSort, List.orderedInsert]
    norm_num [devOrden]
  refine ⟨?_, ?_, ?_, ?_, by norm_num, by norm_num⟩
  · rw [hlist]
    norm_num [imputarAutoLoop, devengamiento_saldo, c2ce, ajSum, apSum,
      List.find?, eps, allocTotal, beq_falso]
  · show (imputarAutoLoop c2ce 1 (devsCliente c2ce 1) (20001/200)).2 = 1/200
    rw [hlist]
    norm_num [imputarAutoLoop, devengamiento_saldo, c2ce, ajSum, apSum,
      List.find?, eps, beq_falso]
  · rw [hlist]
    norm_num [devengamiento_saldo, c2ce, ajSum, apSum, List.find?, beq_falso]
  · rw [hlist]
    norm_num [devengamiento_saldo, c2ce, ajSum, apSum, List.find?, beq_falso]

/-- Committing no allocation rows leaves every balance unchanged. -/
theorem saldo_appendAllocs_nil (s : Store) (i : Int) :
    devengamiento_saldo (appendAllocs s []) i = devengamiento_saldo s i := by
  unfold devengamiento_saldo appendAllocs apSum ajSum
  simp

/-- Committing an allocation row for a different accrual leaves a balance
unchanged. -/
theorem saldo_appendAllocs_cons_ne (s : Store) (b : DevengamientoCobro)
    (res : List DevengamientoCobro) (i : Int) (h : ¬ b.devengamiento_id = i) :
    devengamiento_saldo (appendAllocs s (b :: res)) i
      = devengamiento_saldo (appendAllocs s res) i := by
  unfold devengamiento_saldo appendAllocs apSum ajSum
  simp [List.filter_append, List.filter_cons, h]

/-- Committing allocation rows that all reference other accruals leaves a
balance unchanged. -/
theorem saldo_appendAllocs_no_match (s : Store) (res : List DevengamientoCobro)
    (i : Int) (h : ∀ b ∈ res, ¬ b.devengamiento_id = i) :
    devengamiento_saldo (appendAllocs s res) i = devengamiento_saldo s i := by
  induction res with
  | nil => exact saldo_appendAllocs_nil s i
  | cons b t ih =>
    rw [saldo_appendAllocs_cons_ne s b t i (h b (List.mem_cons_self b t))]
    exact ih (fun x hx => h x (List.mem_cons_of_mem b hx))

/-- Committing allocation rows can lower a balance by at most the matching
rows' total (with the zero clamp). -/
theorem saldo_appendAllocs_le (s : Store) (res : List DevengamientoCobro) (i : Int) :
    devengamiento_saldo (appendAllocs s res) i
      ≤ max 0 (devengamiento_saldo s i
          - allocTotal (res.filter (fun b => b.devengamiento_id == i))) := by
  unfold devengamiento_saldo appendAllocs apSum ajSum allocTotal
  cases hf : s.devengamientos.find? (fun y => y.id == i) with
  | none => simp [hf]
  | some r =>
    simp only [hf, List.filter_append, List.map_append, List.sum_append]
    have h2 := le_max_right (0 : ℚ) (r.importe
      + ((s.ajustes.filter (fun a => a.referencia_devengamiento_id == some i)).map
          (fun a => a.monto)).sum
      - ((s.devengamientos_cobros.filter (fun b => b.devengamiento_id == i)).map
          (fun b => b.monto)).sum)
    exact max_le_max (le_refl (0 : ℚ)) (by linarith)

/-- Every allocation row the automatic walk inserts references a listed
accrual whose balance exceeds the epsilon. -/
theorem autoLoop_origen (s : Store) (cobro : Int) :
    ∀ (l : List Devengamiento) (r : ℚ) (b : DevengamientoCobro),
      b ∈ (imputarAutoLoop s cobro l r).1 →
      ∃ x, x ∈ l ∧ b.devengamiento_id = x.id
        ∧ eps < devengamiento_saldo s x.id := by
  intro l
  induction l with
  | nil => intro r b hb; simp [imputarAutoLoop] at hb
  | cons d t ih =>
    intro r b hb
    by_cases hr : r ≤ eps
    · simp [imputarAutoLoop, hr] at hb
    · by_cases hs : devengamiento_saldo s d.id ≤ eps
      · rw [show (imputarAutoLoop s cobro (d :: t) r).1
            = (imputarAutoLoop s cobro t r).1 by simp [imputarAutoLoop, hr, hs]] at hb
        obtain ⟨x, hx, hbx, hsx⟩ := ih r b hb
        exact ⟨x, List.mem_cons_of_mem d hx, hbx, hsx⟩
      · rw [show (imputarAutoLoop s cobro (d :: t) r).1
            = ⟨d.id, cobro, min r (devengamiento_saldo s d.id)⟩
              :: (imputarAutoLoop s cobro t
                  (r - min r (devengamiento_saldo s d.id))).1
            by simp [imputarAutoLoop, hr, hs]] at hb
        rcases List.mem_cons.mp hb with rfl | hb2
        · exact ⟨d, List.mem_cons_self d t, rfl, not_le.mp hs⟩
        · obtain ⟨x, hx, hbx, hsx⟩ := ih _ b hb2
          exact ⟨x, List.mem_cons_of_mem d hx, hbx, hsx⟩

/-- If the automatic walk inserts anything, its starting amount exceeded the
epsilon. -/
theorem autoLoop_inserta_restante (s : Store) (cobro : Int) :
    ∀ (l : List Devengamiento) (r : ℚ),
      (imputarAutoLoop s cobro l r).1 ≠ [] → eps < r := by
  intro l
  cases l with
  | nil => intro r h; simp [imputarAutoLoop] at h
  | cons d t =>
    intro r h
    by_cases hr : r ≤ eps
    · exfalso
      exact h (by simp [imputarAutoLoop, hr])
    · exact not_le.mp hr

/-- When the automatic walk inserts an allocation for an accrual, every
accrual placed *earlier* in the processed list ends the run (after the
inserted rows are committed) with balance at most the epsilon. -/
theorem autoLoop_agota_anteriores (s : Store) (cobro : Int) :
    ∀ (l : List Devengamiento) (r : ℚ),
      (l.map (fun y => y.id)).Nodup →
      ∀ (l1 l2 : List Devengamiento) (di dj : Devengamiento),
        l = l1 ++ di :: l2 → dj ∈ l2 →
        (∃ b ∈ (imputarAutoLoop s cobro l r).1, b.devengamiento_id = dj.id) →
        devengamiento_saldo (appendAllocs s (imputarAutoLoop s cobro l r).1) di.id
          ≤ eps := by
  intro l
  induction l with
  | nil =>
    intro r _ l1 l2 di dj heq
    exact absurd heq (by simp)
  | cons d t ih =>
    intro r hnd l1 l2 di dj heq hdj hins
    have hnd1 : d.id ∉ t.map (fun y => y.id) := by
      rw [List.map_cons, List.nodup_cons] at hnd
      exact hnd.1
    have hnd2 : (t.map (fun y => y.id)).Nodup := by
      rw [List.map_cons, List.nodup_cons] at hnd
      exact hnd.2
    by_cases hr : r ≤ eps
    · obtain ⟨b, hb, _⟩ := hins
      simp [imputarAutoLoop, hr] at hb
    · by_cases hs : devengamiento_saldo s d.id ≤ eps
      · have hres : (imputarAutoLoop s cobro (d :: t) r).1
            = (imputarAutoLoop s cobro t r).1 := by
          simp [imputarAutoLoop, hr, hs]
        rw [hres] at hins ⊢
        cases l1 with
        | nil =>
          have hd : d = di := by
            have := heq
            simp only [List.nil_append, List.cons.injEq] at this
            exact this.1
          have ht : t = l2 := by
            simp only [List.nil_append, List.cons.injEq] at heq
            exact heq.2
          subst hd
          have hno : ∀ b ∈ (imputarAutoLoop s cobro t r).1,
              ¬ b.devengamiento_id = d.id := by
            intro b hb hbid
            obtain ⟨x, hx, hbx, _⟩ := autoLoop_origen s cobro t r b hb
            exact hnd1 (by
              rw [← hbid, hbx]
              exact List.mem_map_of_mem (fun y => y.id) hx)
          rw [saldo_appendAllocs_no_match s _ d.id hno]
          exact hs
        | cons a l1 =>
          have hdt : d = a ∧ t = l1 ++ di :: l2 := by
            simp only [List.cons_append, List.cons.injEq] at heq
            exact heq
          exact ih r hnd2 l1 l2 di dj hdt.2 hdj hins
      · have hres : (imputarAutoLoop s cobro (d :: t) r).1
            = ⟨d.id, cobro, min r (devengamiento_saldo s d.id)⟩
              :: (imputarAutoLoop s cobro t
                  (r - min r (devengamiento_saldo s d.id))).1 := by
          simp [imputarAutoLoop, hr, hs]
        rw [hres] at hins ⊢
        have htids : ∀ b ∈ (imputarAutoLoop s cobro t
            (r - min r (devengamiento_saldo s d.id))).1,
            ¬ b.devengamiento_id = d.id := by
          intro b hb hbid
          obtain ⟨x, hx, hbx, _⟩ := autoLoop_origen s cobro t _ b hb
          exact hnd1 (by
            rw [← hbid, hbx]
            exact List.mem_map_of_mem (fun y => y.id) hx)
        cases l1 with
        | nil =>
          have hd : d = di := by
            simp only [List.nil_append, List.cons.injEq] at heq
            exact heq.1
          have ht : t = l2 := by
            simp only [List.nil_append, List.cons.injEq] at heq
            exact heq.2
          have hdne : ¬ d.id = dj.id := by
            intro hid
            apply hnd1
            rw [hid, ht]
            exact List.mem_map_of_mem (fun y => y.id) hdj
          obtain ⟨b, hb, hbid⟩ := hins
          rcases List.mem_cons.mp hb with rfl | hb2
          · exact absurd hbid hdne
          · have hne : (imputarAutoLoop s cobro t
                (r - min r (devengamiento_saldo s d.id))).1 ≠ [] := by
              intro h0
              rw [h0] at hb2
              cases hb2
            have hlt := autoLoop_inserta_restante s cobro t _ hne
            have hmin : min r (devengamiento_saldo s d.id)
                = devengamiento_saldo s d.id := by
              rcases min_cases r (devengamiento_saldo s d.id) with ⟨h1, h2⟩ | ⟨h1, h2⟩
              · exfalso
                rw [h1] at hlt
                have : (0 : ℚ) < eps := by norm_num [eps]
                linarith
              · exact h1
            subst hd
            have hbound := saldo_appendAllocs_le s
              (⟨d.id, cobro, min r (devengamiento_saldo s d.id)⟩
                :: (imputarAutoLoop s cobro t
                    (r - min r (devengamiento_saldo s d.id))).1) d.id
            have hT : allocTotal
                ((⟨d.id, cobro, min r (devengamiento_saldo s d.id)⟩
                  :: (imputarAutoLoop s cobro t
                      (r - min r (devengamiento_saldo s d.id))).1).filter
                  (fun b => b.devengamiento_id == d.id))
                = min r (devengamiento_saldo s d.id) := by
              rw [List.filter_cons]
              simp only [beq_self_eq_true, if_pos]
              have hnil : ((imputarAutoLoop s cobro t
                  (r - min r (devengamiento_saldo s d.id))).1.filter
                    (fun b => b.devengamiento_id == d.id)) = [] := by
                apply List.filter_eq_nil_iff.mpr
                intro b hb
                simp only [beq_iff_eq]
                exact htids b hb
              rw [hnil]
              simp [allocTotal]
            rw [hT] at hbound
            have hz : max (0 : ℚ)
                (devengamiento_saldo s d.id - min r (devengamiento_saldo s d.id)) = 0 := by
              rw [hmin, sub_self]
              norm_num
            rw [hz] at hbound
            have heps : (0 : ℚ) ≤ eps := by norm_num [eps]
            linarith
        | cons a l1 =>
          have hdt : d = a ∧ t = l1 ++ di :: l2 := by
            simp only [List.cons_append, List.cons.injEq] at heq
            exact heq
          have hdine : ¬ d.id = di.id := by
            intro hid
            apply hnd1
            rw [hid, hdt.2]
            exact List.mem_map_of_mem (fun y => y.id)
              (List.mem_append.mpr (Or.inr (List.mem_cons_self di l2)))
          rw [saldo_appendAllocs_cons_ne s _ _ di.id hdine]
          obtain ⟨b, hb, hbid⟩ := hins
          rcases List.mem_cons.mp hb with rfl | hb2
          · exfalso
            apply hnd1
            have hid : d.id = dj.id := by simpa using hbid
            rw [hid, hdt.2]
            exact List.mem_map_of_mem (fun y => y.id)
              (List.mem_append.mpr (Or.inr (List.mem_cons_of_mem di hdj)))
          · exact ih _ hnd2 l1 l2 di dj hdt.2 hdj ⟨b, hb2, hbid⟩

/-- Each allocation row the automatic walk inserts carries exactly
`min(remaining amount at that point, the accrual's balance)`, and only
accruals with balance above the epsilon receive one. -/
theorem autoLoop_montos (s : Store) (cobro : Int) :
    ∀ (l : List Devengamiento) (r : ℚ) (pre post : List DevengamientoCobro)
      (b : DevengamientoCobro),
      (imputarAutoLoop s cobro l r).1 = pre ++ b :: post →
      b.monto = min (r - allocTotal pre)
          (devengamiento_saldo s b.devengamiento_id)
      ∧ eps < devengamiento_saldo s b.devengamiento_id := by
  intro l
  induction l with
  | nil =>
    intro r pre post b heq
    exact absurd heq (by simp [imputarAutoLoop])
  | cons d t ih =>
    intro r pre post b heq
    by_cases hr : r ≤ eps
    · rw [show (imputarAutoLoop s cobro (d :: t) r).1 = []
          by simp [imputarAutoLoop, hr]] at heq
      exact absurd heq (by simp)
    · by_cases hs : devengamiento_saldo s d.id ≤ eps
      · rw [show (imputarAutoLoop s cobro (d :: t) r).1
            = (imputarAutoLoop s cobro t r).1
            by simp [imputarAutoLoop, hr, hs]] at heq
        exact ih r pre post b heq
      · rw [show (imputarAutoLoop s cobro (d :: t) r).1
            = ⟨d.id, cobro, min r (devengamiento_saldo s d.id)⟩
              :: (imputarAutoLoop s cobro t
                  (r - min r (devengamiento_saldo s d.id))).1
            by simp [imputarAutoLoop, hr, hs]] at heq
        cases pre with
        | nil =>
          simp only [List.nil_append, List.cons.injEq] at heq
          rw [← heq.1]
          constructor
          · simp [allocTotal]
          · exact not_le.mp hs
        | cons c pre =>
          simp only [List.cons_append, List.cons.injEq] at heq
          have hstep := ih (r - min r (devengamiento_saldo s d.id)) pre post b heq.2
          constructor
          · rw [hstep.1, ← heq.1]
            congr 1
            simp only [allocTotal, List.map_cons, List.sum_cons]
            ring
          · exact hstep.2

/-- C8: automatic allocation walks the client's accruals in ascending
(year, month, id) order — the processed list is sorted by that key; whenever
an allocation is inserted for an accrual, every accrual earlier in that
order ends the run with balance at most the 0.01 epsilon; and every inserted
allocation carries `min(remaining payment amount, accrual balance)`, only
for accruals whose balance exceeds the epsilon. -/
theorem imputacion_automatica_orden (s : Store) (cobro cliente : Int) (A : ℚ)
    (hnodup : (s.devengamientos.map (fun y => y.id)).Nodup) :
    (devsCliente s cliente).Sorted devOrden
    ∧ (∀ (l1 l2 : List Devengamiento) (di dj : Devengamiento),
        devsCliente s cliente = l1 ++ di :: l2 → dj ∈ l2 →
        (∃ b ∈ (imputarAutoLoop s cobro (devsCliente s cliente) A).1,
          b.devengamiento_id = dj.id) →
        devengamiento_saldo
          (appendAllocs s (imputarAutoLoop s cobro (devsCliente s cliente) A).1)
          di.id ≤ eps)
    ∧ (∀ (pre post : List DevengamientoCobro) (b : DevengamientoCobro),
        (imputarAutoLoop s cobro (devsCliente s cliente) A).1 = pre ++ b :: post →
        b.monto = min (A - allocTotal pre)
            (devengamiento_saldo s b.devengamiento_id)
        ∧ eps < devengamiento_saldo s b.devengamiento_id) := by
  have hfil : ((s.devengamientos.filter
      (fun y => y.cliente_id == cliente)).map (fun y : Devengamiento => y.id)).Nodup :=
    List.Nodup.sublist
      (List.Sublist.map (fun y : Devengamiento => y.id)
        (List.filter_sublist s.devengamientos)) hnodup
  have hperm : List.Perm
      ((devsCliente s cliente).map (fun y : Devengamiento => y.id))
      ((s.devengamientos.filter (fun y => y.cliente_id == cliente)).map
        (fun y : Devengamiento => y.id)) :=
    List.Perm.map (fun y : Devengamiento => y.id)
      (List.perm_insertionSort devOrden _)
  have hl : ((devsCliente s cliente).map (fun y => y.id)).Nodup :=
    hperm.nodup_iff.mpr hfil
  refine ⟨List.sorted_insertionSort devOrden _, ?_, ?_⟩
  · intro l1 l2 di dj heq hdj hins
    exact autoLoop_agota_anteriores s cobro (devsCliente s cliente) A hl
      l1 l2 di dj heq hdj hins
  · intro pre post b heq
    exact autoLoop_montos s cobro (devsCliente s cliente) A pre post b heq

/-- C8 witness: in `c8w` (accruals stored newest-first in the table) a
payment of 150 walks the sorted list, exhausts the 2024-01 accrual before
the 2024-02 accrual receives 50 = min(150 − 100, 100). -/
theorem imputacion_automatica_orden_witness :
    (c8w.devengamientos.map (fun y => y.id)).Nodup
    ∧ (devsCliente c8w 1).Sorted devOrden
    ∧ devengamiento_saldo
        (appendAllocs c8w (imputarAutoLoop c8w 1 (devsCliente c8w 1) 150).1)
        (⟨1, 1, none, 2024, 1, 100, ⟨2024, 1, 31⟩⟩ : Devengamiento).id ≤ eps
    ∧ ((⟨2, 1, 50⟩ : DevengamientoCobro).monto
        = min (150 - allocTotal [⟨1, 1, 100⟩])
            (devengamiento_saldo c8w
              (⟨2, 1, 50⟩ : DevengamientoCobro).devengamiento_id)
      ∧ eps < devengamiento_saldo c8w
          (⟨2, 1, 50⟩ : DevengamientoCobro).devengamiento_id) := by
  have hnd : (c8w.devengamientos.map (fun y => y.id)).Nodup := by simp [c8w]
  have h := imputacion_automatica_orden c8w 1 1 150 hnd
  have hlist : devsCliente c8w 1
      = [⟨1, 1, none, 2024, 1, 100, ⟨2024, 1, 31⟩⟩,
         ⟨2, 1, none, 2024, 2, 100, ⟨2024, 2, 29⟩⟩] := by
    simp only [devsCliente, c8w, List.filter, List.insertionSort, List.orderedInsert]
    norm_num [devOrden]
  have hres : (imputarAutoLoop c8w 1 (devsCliente c8w 1) 150).1
      = [⟨1, 1, 100⟩, ⟨2, 1, 50⟩] := by
    rw [hlist]
    norm_num [imputarAutoLoop, devengamiento_saldo, c8w, ajSum, apSum,
      List.find?, eps, beq_falso, min_def]
  refine ⟨hnd, h.1, ?_, ?_⟩
  · exact h.2.1 [] [⟨2, 1, none, 2024, 2, 100, ⟨2024, 2, 29⟩⟩]
      (⟨1, 1, none, 2024, 1, 100, ⟨2024, 1, 31⟩⟩ : Devengamiento)
      (⟨2, 1, none, 2024, 2, 100, ⟨2024, 2, 29⟩⟩ : Devengamiento)
      (by simpa using hlist) (by simp)
      ⟨⟨2, 1, 50⟩, by rw [hres]; simp, rfl⟩
  · exact h.2.2 [⟨1, 1, 100⟩] [] ⟨2, 1, 50⟩ (by rw [hres]; rfl)

/-- C9 (amended): a *nonzero* reference to an accrual missing from the store
is cleared — the adjustment is inserted with all fields as given and a null
reference, and the operation succeeds.  (For reference id 0 see the
counterexample: the falsy-0 path fails the whole operation.) -/
theorem ajuste_referencia_inexistente (s : Store) (cliente : Int) (fecha : Fecha)
    (descripcion : String) (monto : ℚ) (tipo : String) (r : Int)
    (hr : r ≠ 0) (hex : devengamiento_exists s r = false) :
    registrar_ajuste s cliente fecha descripcion monto tipo (some r)
      = some { s with ajustes :=
          s.ajustes ++ [⟨cliente, fecha, descripcion, monto, tipo, none⟩] } := by
  simp [registrar_ajuste, hex, hr]

/-- C9 witness: in `c9s`, id 5 is nonzero and missing, and the adjustment is
recorded with the reference cleared. -/
theorem ajuste_referencia_inexistente_witness :
    (5 : Int) ≠ 0 ∧ devengamiento_exists c9s 5 = false
    ∧ registrar_ajuste c9s 1 ⟨2024, 4, 1⟩ "nota" 5 "otro" (some 5)
        = some { c9s with ajustes :=
            c9s.ajustes ++ [⟨1, ⟨2024, 4, 1⟩, "nota", 5, "otro", none⟩] } :=
  ⟨by norm_num, by simp [devengamiento_exists, c9s],
   ajuste_referencia_inexistente c9s 1 ⟨2024, 4, 1⟩ "nota" 5 "otro" 5
     (by norm_num) (by simp [devengamiento_exists, c9s])⟩

/-- C9 counterexample: a referenced accrual id of `0` does not exist in
`c9s`, yet the operation fails (Python treats `0` as falsy and skips the
existence check; the insert then violates the foreign key) instead of
inserting the adjustment with a null reference. -/
theorem ajuste_referencia_cero_falla :
    devengamiento_exists c9s 0 = false
    ∧ registrar_ajuste c9s 1 ⟨2024, 4, 1⟩ "nota" 5 "otro" (some 0) = none := by
  constructor
  · simp [devengamiento_exists, c9s]
  · simp [registrar_ajuste, devengamiento_exists, c9s]

/-- C10: manual-allocation clamping is tolerance-based — a requested amount
within 0.01 of both the accrual's balance and the payment's remainder is
inserted at the full requested amount (clamping only fires when a bound is
exceeded by more than 0.01), so an allocation may exceed either bound by up
to 0.01. -/
theorem imputacion_manual_tolerancia (s : Store) (cobro did : Int)
    (monto restante : ℚ)
    (hex : devengamiento_exists s did = true) (hpos : 0 < monto)
    (hs : monto ≤ devengamiento_saldo s did + eps)
    (hr : monto ≤ restante + eps) :
    (imputarManualLoop s cobro [(did, monto)] restante).1
      = [⟨did, cobro, monto⟩] := by
  have h1 : ¬ monto ≤ 0 := not_le.mpr hpos
  have h2 : ¬ devengamiento_saldo s did + eps < monto := not_lt.mpr hs
  have h3 : ¬ restante + eps < monto := not_lt.mpr hr
  simp only [imputarManualLoop, hex, h1, if_false, Bool.not_true, Bool.false_eq_true,
    gt_iff_lt, h2, if_neg h2, if_neg h3, if_neg h1]
  by_cases h4 : restante - monto ≤ eps <;> simp [h4, imputarManualLoop]

/-- C10 witness: in `c10s`, a request of 300.005 against balance 300 with
remainder 800 is inserted at the full 300.005 — exceeding the balance. -/
theorem imputacion_manual_tolerancia_witness :
    devengamiento_exists c10s 7 = true
    ∧ (0 : ℚ) < 60001/200
    ∧ (60001/200 : ℚ) ≤ devengamiento_saldo c10s 7 + eps
    ∧ (60001/200 : ℚ) ≤ 800 + eps
    ∧ (imputarManualLoop c10s 1 [(7, 60001/200)] 800).1 = [⟨7, 1, 60001/200⟩]
    ∧ devengamiento_saldo c10s 7 < 60001/200 :=
  ⟨by simp [devengamiento_exists, c10s], by norm_num,
   by norm_num [devengamiento_saldo, c10s, ajSum, apSum, List.find?, eps],
   by norm_num [eps],
   imputacion_manual_tolerancia c10s 1 7 (60001/200) 800
     (by simp [devengamiento_exists, c10s]) (by norm_num)
     (by norm_num [devengamiento_saldo, c10s, ajSum, apSum, List.find?, eps])
     (by norm_num [eps]),
   by norm_num [devengamiento_saldo, c10s, ajSum, apSum, List.find?]⟩

/-- C3 (amended): a manual directive is clamped to the accrual's balance when
the request exceeds the balance *by more than 0.01* (and to the payment's
remainder when it exceeds the remainder by more than 0.01) — not on any
excess, see the counterexample; the spec scenario (request 1000, balance 300,
remainder 800 → applied 300, remainder 500) holds. -/
theorem imputacion_manual_recorte (s : Store) (cobro did : Int)
    (monto restante : ℚ)
    (hex : devengamiento_exists s did = true) (hpos : 0 < monto) :
    (devengamiento_saldo s did + eps < monto →
      devengamiento_saldo s did ≤ restante + eps →
      0 < devengamiento_saldo s did →
      (imputarManualLoop s cobro [(did, monto)] restante).1
        = [⟨did, cobro, devengamiento_saldo s did⟩]
      ∧ (imputarManualLoop s cobro [(did, monto)] restante).2
        = restante - devengamiento_saldo s did)
    ∧ (monto ≤ devengamiento_saldo s did + eps →
      restante + eps < monto →
      0 < restante →
      (imputarManualLoop s cobro [(did, monto)] restante).1
        = [⟨did, cobro, restante⟩])
    ∧ ((imputarManualLoop c3s 1 [(7, 1000)] 800).1 = [⟨7, 1, (300 : ℚ)⟩]
      ∧ (imputarManualLoop c3s 1 [(7, 1000)] 800).2 = 500) := by
  have h1 : ¬ monto ≤ 0 := not_le.mpr hpos
  refine ⟨?_, ?_, ?_⟩
  · intro ha hb hc
    have h2 : ¬ devengamiento_saldo s did ≤ 0 := not_le.mpr hc
    have h3 : ¬ restante + eps < devengamiento_saldo s did := not_lt.mpr hb
    simp only [imputarManualLoop, hex, h1, if_false, Bool.not_true,
      Bool.false_eq_true, gt_iff_lt, if_pos ha, if_neg h3, if_neg h2]
    by_cases h4 : restante - devengamiento_saldo s did ≤ eps <;>
      simp [h4, imputarManualLoop]
  · intro ha hb hc
    have h2 : ¬ devengamiento_saldo s did + eps < monto := not_lt.mpr ha
    have h3 : ¬ restante ≤ 0 := not_le.mpr hc
    have h4 : restante - restante ≤ eps := by
      norm_num [eps]
    simp only [imputarManualLoop, hex, h1, if_false, Bool.not_true,
      Bool.false_eq_true, gt_iff_lt, if_neg h2, if_pos hb, if_neg h3, if_pos h4]
  · norm_num [imputarManualLoop, devengamiento_saldo, devengamiento_exists,
      c3s, ajSum, apSum, List.find?, eps]

/-- C3 witness: the amended theorem applied at the scenario's ledger with a
request of 1000 against accrual 7. -/
theorem imputacion_manual_recorte_witness :
    devengamiento_exists c3s 7 = true ∧ (0 : ℚ) < 1000
    ∧ ((imputarManualLoop c3s 1 [(7, 1000)] 800).1 = [⟨7, 1, (300 : ℚ)⟩]
      ∧ (imputarManualLoop c3s 1 [(7, 1000)] 800).2 = 500) :=
  ⟨by simp [devengamiento_exists, c3s], by norm_num,
   (imputacion_manual_recorte c3s 1 7 1000 800
     (by simp [devengamiento_exists, c3s]) (by norm_num)).2.2⟩

/-- C3 counterexample: a request of 300.005 strictly exceeds accrual 7's
balance of 300, yet the applied amount is the full 300.005, not the
balance. -/
theorem imputacion_manual_recorte_contraejemplo :
    devengamiento_saldo c3s 7 = 300
    ∧ (300 : ℚ) < 60001/200
    ∧ (imputarManualLoop c3s 1 [(7, 60001/200)] 800).1.map (fun a => a.monto)
        = [60001/200]
    ∧ (60001/200 : ℚ) ≠ 300 := by
  refine ⟨?_, by norm_num, ?_, by norm_num⟩
  · norm_num [devengamiento_saldo, c3s, ajSum, apSum, List.find?]
  · norm_num [imputarManualLoop, devengamiento_saldo, devengamiento_exists,
      c3s, ajSum, apSum, List.find?, eps]

end Abonos
